import Mathlib

/-!
Shallow embedding of the fusion/reconciliation core of the DAF
(Device Annotation Framework): `taxonomy_checker.py`, `annotation.py`,
`ip.py` and the orchestrator `daf.py`.

Python values of the five classification fields are either a string or
`None`; an empty string is "falsy" exactly like `None`.  We embed a field
value as `Option String`, with `none` standing for Python `None`, and keep
Python truthiness explicit via `truthy`.
-/

namespace DAF

/-- Python truthiness of an optional string: `None` and `""` are falsy. -/
def truthy : Option String → Bool
  | none => false
  | some s => s ≠ ""

/-- Python `str.lower`, written over the character list so that it reduces
by `decide`/`rfl` (ASCII case folding, as `Char.toLower`). -/
def pyLower (s : String) : String :=
  String.mk (s.data.map Char.toLower)

/-- The taxonomy checker state (`Taxonomy_checker.__init__` after loading the
two JSON files): `os_tax` maps an OS family to its valid OS types, `dev_tax`
maps a device group to its valid device classes.  JSON objects are embedded
as association lists with string keys. -/
structure Taxonomy_checker where
  os_tax : List (String × List String)
  dev_tax : List (String × List String)
deriving DecidableEq

/-- Python `key in dict` for an optional key: `None` is never a key of a
JSON-loaded dict (all keys are strings). -/
def keyMem (k : Option String) (tax : List (String × List String)) : Bool :=
  match k with
  | none => false
  | some s => tax.any (fun p => p.1 == s)

/-- Python `dict[key]` lookup (first binding; JSON dicts have unique keys). -/
def taxLookup (tax : List (String × List String)) (s : String) : List String :=
  match tax.find? (fun p => p.1 == s) with
  | none => []
  | some p => p.2

/-- `Taxonomy_checker.check_os`: `os_family in self.os_tax and
(os_type is None or os_type in self.os_tax[os_family])`; `os_version` is
never consulted. -/
def check_os (tc : Taxonomy_checker) (os_family os_type os_version : Option String) : Bool :=
  match os_family with
  | none => false
  | some f =>
    match os_type with
    | none => keyMem (some f) tc.os_tax
    | some t => keyMem (some f) tc.os_tax && (taxLookup tc.os_tax f).contains t

/-- `Taxonomy_checker.check_device`: `group in self.dev_tax and
(_class is None or _class in self.dev_tax[group])`. -/
def check_device (tc : Taxonomy_checker) (group _class : Option String) : Bool :=
  match group with
  | none => false
  | some g =>
    match _class with
    | none => keyMem (some g) tc.dev_tax
    | some c => keyMem (some g) tc.dev_tax && (taxLookup tc.dev_tax g).contains c

/-- A Classification Record (`Annotation`): the five classification fields,
each `None` or a string. -/
structure Annotation where
  group : Option String
  _class : Option String
  os_family : Option String
  os_type : Option String
  os_version : Option String
deriving DecidableEq

/-- The all-`None` record produced by `Annotation.__init__` before
`set_annotation` runs (also the initial final record of an IP). -/
def emptyAnnotation : Annotation :=
  { group := none, _class := none, os_family := none, os_type := none, os_version := none }

/-- The inner `_validate_label` of `Annotation.set_annotation`: `None` (and
any non-string, which we embed as `none`) stays absent, the empty string
becomes absent, other strings are lowercased. -/
def _validate_label (label : Option String) : Option String :=
  match label with
  | none => none
  | some s => if s.length = 0 then none else some (pyLower s)

/-- `Annotation.set_annotation`: normalize the five labels, then assign the
OS triple only if `check_os` accepts it and the device pair only if
`check_device` accepts it; a rejected half of the record is left unchanged. -/
def set_annotation (tc : Taxonomy_checker) (a : Annotation)
    (group_label _class_label os_family_label os_type_label os_version_label :
      Option String) : Annotation :=
  let os_family := _validate_label os_family_label
  let os_type := _validate_label os_type_label
  let os_version := _validate_label os_version_label
  let group := _validate_label group_label
  let _class := _validate_label _class_label
  let a1 :=
    if check_os tc os_family os_type os_version then
      { a with os_family := os_family, os_type := os_type, os_version := os_version }
    else a
  if check_device tc group _class then
    { a1 with group := group, _class := _class }
  else a1

/-- `Annotation.__init__`: start from the all-absent record and run
`set_annotation` on the five constructor arguments. -/
def mkAnnotation (tc : Taxonomy_checker)
    (group _class os_family os_type os_version : Option String) : Annotation :=
  set_annotation tc emptyAnnotation group _class os_family os_type os_version

/-- The dictionary produced by `Annotation.export` (fixed keys `group`,
`class`, `os_family`, `os_type`, `os_version`). -/
structure AnnotationDict where
  group : Option String
  _class : Option String
  os_family : Option String
  os_type : Option String
  os_version : Option String
deriving DecidableEq

/-- `Annotation.export`. -/
def exportAnnotation (a : Annotation) : AnnotationDict :=
  { group := a.group, _class := a._class, os_family := a.os_family,
    os_type := a.os_type, os_version := a.os_version }

/-- `Annotation.load`: feed the exported dictionary back through the
constructor (hence through `set_annotation` and the taxonomy checks). -/
def loadAnnotation (tc : Taxonomy_checker) (d : AnnotationDict) : Annotation :=
  mkAnnotation tc d.group d._class d.os_family d.os_type d.os_version

/-- Python list truthiness filter `[tag for tag in tags if tag]` at the top
of `IP.merge_annotation`: drop `None` and empty strings. -/
def pyFilter (tags : List (Option String)) : List String :=
  tags.filterMap (fun t =>
    match t with
    | none => none
    | some s => if s = "" then none else some s)

/-- `collections.Counter` as a dict: occurrence counts of the distinct
values, listed in order of first occurrence. -/
def tally (l : List String) : List (String × Nat) :=
  l.foldl
    (fun acc s =>
      if acc.any (fun p => p.1 == s) then
        acc.map (fun p => if p.1 == s then (p.1, p.2 + 1) else p)
      else acc ++ [(s, 1)])
    []

/-- Stable descending insertion by count: the new pair goes after every
already-placed pair of greater or equal count. -/
def insertByCount (x : String × Nat) : List (String × Nat) → List (String × Nat)
  | [] => [x]
  | y :: ys => if x.2 ≤ y.2 then y :: insertByCount x ys else x :: y :: ys

/-- `Counter(tags).most_common()`: count pairs sorted by count descending;
the Python sort is stable, so ties keep first-occurrence order. -/
def most_common (l : List String) : List (String × Nat) :=
  (tally l).foldl (fun acc x => insertByCount x acc) []

/-- What one `IP.merge_annotation` call produces: the merged value (Python
returns the empty string for "absent", embedded as `none`) plus the entries
it appended to `self.one_miss` and `self.multi_device`. -/
structure MergeResult where
  value : Option String
  one_miss : List (List (String × Nat))
  multi_device : List (String × List String)
deriving DecidableEq

/-- `IP.merge_annotation`: filter falsy tags, rank the occurrence counts,
then walk the Python `if` chain — single consensual value; two values with
a lone dissenter (`one_miss`); otherwise, for `nat_check` fields with more
than one distinct value, a `multi_device` record tagged
`IP:merge_annotation_fail` with the filtered tag list. -/
def merge_annotation (tags : List (Option String)) (min_annotators_count : Nat)
    (nat_check : Bool) : MergeResult :=
  let filtered := pyFilter tags
  match most_common filtered with
  | [] => { value := none, one_miss := [], multi_device := [] }
  | [(v0, c0)] =>
    if min_annotators_count ≤ c0 then
      { value := some v0, one_miss := [], multi_device := [] }
    else
      { value := none, one_miss := [], multi_device := [] }
  | [(v0, c0), (v1, c1)] =>
    if min_annotators_count ≤ c0 ∧ c1 = 1 then
      { value := none, one_miss := [[(v0, c0), (v1, c1)]], multi_device := [] }
    else if nat_check then
      { value := none, one_miss := [],
        multi_device := [("IP:merge_annotation_fail", filtered)] }
    else
      { value := none, one_miss := [], multi_device := [] }
  | _ :: _ :: _ :: _ =>
    if nat_check then
      { value := none, one_miss := [],
        multi_device := [("IP:merge_annotation_fail", filtered)] }
    else
      { value := none, one_miss := [], multi_device := [] }

/-- An Entity Ledger Entry (`IP`).  Python dicts keep insertion order, so the
candidate map and the evidence map are embedded as association lists; the
opaque per-annotator evidence payload is embedded as a string.  A `hand_miss`
entry is `(field_name, hand_value, previous_final_value)`. -/
structure IP where
  ip_addr : String
  final_annotation : Annotation
  annotations : List (String × Annotation)
  data : List (String × String)
  hand_miss : List (String × String × Option String)
  one_miss : List (List (String × Nat))
  multi_device : List (String × List String)
deriving DecidableEq

/-- `IP.__init__` for a given address. -/
def mkIP (ip_addr : String) : IP :=
  { ip_addr := ip_addr, final_annotation := emptyAnnotation, annotations := [],
    data := [], hand_miss := [], one_miss := [], multi_device := [] }

/-- The final Classification Record of an entry. -/
def finalRec (ip : IP) : Annotation :=
  ip.final_annotation

/-- One field of the hand-override loop in `IP.perform_annotation`:
`if hand_value and hand_value != final_value: setattr(...)`. -/
def overrideField (hand_value final_value : Option String) : Option String :=
  if truthy hand_value ∧ hand_value ≠ final_value then hand_value else final_value

/-- The `hand_miss` entry (if any) the override loop appends for one field. -/
def overrideMiss (attr_name : String) (hand_value final_value : Option String) :
    List (String × String × Option String) :=
  if truthy hand_value ∧ hand_value ≠ final_value then
    [(attr_name, hand_value.getD "", final_value)]
  else []

/-- The final record after the whole hand-override loop: each of the five
fields overridden independently. -/
def ovRecord (hand fin : Annotation) : Annotation :=
  { group := overrideField hand.group fin.group
    _class := overrideField hand._class fin._class
    os_family := overrideField hand.os_family fin.os_family
    os_type := overrideField hand.os_type fin.os_type
    os_version := overrideField hand.os_version fin.os_version }

/-- The `hand_miss` entries the whole hand-override loop appends, in field
order. -/
def ovMisses (hand fin : Annotation) : List (String × String × Option String) :=
  overrideMiss "group" hand.group fin.group ++
  overrideMiss "_class" hand._class fin._class ++
  overrideMiss "os_family" hand.os_family fin.os_family ++
  overrideMiss "os_type" hand.os_type fin.os_type ++
  overrideMiss "os_version" hand.os_version fin.os_version

/-- `IP.perform_annotation`: merge each of the five fields over the values of
every candidate record (in candidate-map order), write the merged five-tuple
into the final record through `set_annotation`, then — if a record keyed
`hand_annotator` is present — run the per-field hand-override loop in field
order `group, _class, os_family, os_type, os_version`. -/
def perform_annotation (tc : Taxonomy_checker) (ip : IP)
    (min_annotators_count : Nat) : IP :=
  let vals := ip.annotations.map (fun p => p.2)
  let groupR := merge_annotation (vals.map (fun a => a.group)) min_annotators_count true
  let classR := merge_annotation (vals.map (fun a => a._class)) min_annotators_count false
  let famR := merge_annotation (vals.map (fun a => a.os_family)) min_annotators_count true
  let typR := merge_annotation (vals.map (fun a => a.os_type)) min_annotators_count true
  let verR := merge_annotation (vals.map (fun a => a.os_version)) min_annotators_count false
  let fin1 := set_annotation tc ip.final_annotation
    groupR.value classR.value famR.value typR.value verR.value
  let ip1 : IP :=
    { ip with
      final_annotation := fin1
      one_miss := ip.one_miss ++ groupR.one_miss ++ classR.one_miss ++
        famR.one_miss ++ typR.one_miss ++ verR.one_miss
      multi_device := ip.multi_device ++ groupR.multi_device ++ classR.multi_device ++
        famR.multi_device ++ typR.multi_device ++ verR.multi_device }
  match ip.annotations.find? (fun p => p.1 == "hand_annotator") with
  | none => ip1
  | some hp =>
    { ip1 with
      final_annotation := ovRecord hp.2 fin1
      hand_miss := ip.hand_miss ++ ovMisses hp.2 fin1 }

/-- The dictionary produced by `IP.export` (Python serializes `ip_addr` with
`str`; we embed an address as its canonical string, so `ipaddress.ip_address`
applied to it is the identity). -/
structure IPDict where
  ip_addr : String
  final_annotation : AnnotationDict
  annotations : List (String × AnnotationDict)
  data : List (String × String)
  hand_miss : List (String × String × Option String)
  one_miss : List (List (String × Nat))
  multi_device : List (String × List String)
deriving DecidableEq

/-- `IP.export`. -/
def exportIP (ip : IP) : IPDict :=
  { ip_addr := ip.ip_addr
    final_annotation := exportAnnotation ip.final_annotation
    annotations := ip.annotations.map (fun p => (p.1, exportAnnotation p.2))
    data := ip.data
    hand_miss := ip.hand_miss
    one_miss := ip.one_miss
    multi_device := ip.multi_device }

/-- `IP.load`: construct a fresh entry for the address, then overwrite the
final record and every candidate record through `Annotation.load` and copy
the evidence map and the three audit lists. -/
def loadIP (tc : Taxonomy_checker) (d : IPDict) : IP :=
  { mkIP d.ip_addr with
    final_annotation := loadAnnotation tc d.final_annotation
    annotations := d.annotations.map (fun p => (p.1, loadAnnotation tc p.2))
    data := d.data
    hand_miss := d.hand_miss
    one_miss := d.one_miss
    multi_device := d.multi_device }

/-- The five field names in the order of the hand-override loop of
`IP.perform_annotation`. -/
def fieldNames : List String := ["group", "_class", "os_family", "os_type", "os_version"]

/-- `getattr` on a Classification Record for the five field names. -/
def fieldVal (attr_name : String) (a : Annotation) : Option String :=
  if attr_name = "group" then a.group
  else if attr_name = "_class" then a._class
  else if attr_name = "os_family" then a.os_family
  else if attr_name = "os_type" then a.os_type
  else if attr_name = "os_version" then a.os_version
  else none

/-- The majority-vote phase of `IP.perform_annotation` (everything before the
hand-override block): the five per-field merges over the values of every
candidate record, the audit appends they make, and the final record update
through `set_annotation`. -/
def fuse_candidates (tc : Taxonomy_checker) (ip : IP) (min_annotators_count : Nat) : IP :=
  let vals := ip.annotations.map (fun p => p.2)
  let groupR := merge_annotation (vals.map (fun a => a.group)) min_annotators_count true
  let classR := merge_annotation (vals.map (fun a => a._class)) min_annotators_count false
  let famR := merge_annotation (vals.map (fun a => a.os_family)) min_annotators_count true
  let typR := merge_annotation (vals.map (fun a => a.os_type)) min_annotators_count true
  let verR := merge_annotation (vals.map (fun a => a.os_version)) min_annotators_count false
  { ip with
    final_annotation := set_annotation tc ip.final_annotation
      groupR.value classR.value famR.value typR.value verR.value
    one_miss := ip.one_miss ++ groupR.one_miss ++ classR.one_miss ++
      famR.one_miss ++ typR.one_miss ++ verR.one_miss
    multi_device := ip.multi_device ++ groupR.multi_device ++ classR.multi_device ++
      famR.multi_device ++ typR.multi_device ++ verR.multi_device }

/-- The hand-override phase of `IP.perform_annotation`: if a candidate record
keyed `hand_annotator` is present, overwrite each field whose hand value is
truthy and differs from the current final value, appending a `hand_miss`
entry per overwritten field, in field order. -/
def apply_hand_override (ip : IP) : IP :=
  match ip.annotations.find? (fun p => p.1 == "hand_annotator") with
  | none => ip
  | some hp =>
    { ip with
      final_annotation := ovRecord hp.2 ip.final_annotation
      hand_miss := ip.hand_miss ++ ovMisses hp.2 ip.final_annotation }

/-- Following the words of the spec, for comparison with the code: fusion in
which the record of the hand-curated annotator is NOT an input to the vote — the
five merges run only over the non-hand candidate records — followed by the
same hand-override phase. -/
def perform_annotation_claimed (tc : Taxonomy_checker) (ip : IP)
    (min_annotators_count : Nat) : IP :=
  let vals := (ip.annotations.filter (fun p => ¬ p.1 == "hand_annotator")).map (fun p => p.2)
  let groupR := merge_annotation (vals.map (fun a => a.group)) min_annotators_count true
  let classR := merge_annotation (vals.map (fun a => a._class)) min_annotators_count false
  let famR := merge_annotation (vals.map (fun a => a.os_family)) min_annotators_count true
  let typR := merge_annotation (vals.map (fun a => a.os_type)) min_annotators_count true
  let verR := merge_annotation (vals.map (fun a => a.os_version)) min_annotators_count false
  apply_hand_override
    { ip with
      final_annotation := set_annotation tc ip.final_annotation
        groupR.value classR.value famR.value typR.value verR.value
      one_miss := ip.one_miss ++ groupR.one_miss ++ classR.one_miss ++
        famR.one_miss ++ typR.one_miss ++ verR.one_miss
      multi_device := ip.multi_device ++ groupR.multi_device ++ classR.multi_device ++
        famR.multi_device ++ typR.multi_device ++ verR.multi_device }

/-- Following the words of the spec, for comparison with the code:
`check_os` as the spec states it — true iff the family is absent, or the
family is a known key and the type is absent or listed under it. -/
def check_os_claimed (tc : Taxonomy_checker) (os_family os_type os_version : Option String) :
    Bool :=
  match os_family with
  | none => true
  | some f =>
    match os_type with
    | none => keyMem (some f) tc.os_tax
    | some t => keyMem (some f) tc.os_tax && (taxLookup tc.os_tax f).contains t

/-- Following the words of the spec, for comparison with the code:
`check_device` as the spec states it (symmetric rule). -/
def check_device_claimed (tc : Taxonomy_checker) (group _class : Option String) : Bool :=
  match group with
  | none => true
  | some g =>
    match _class with
    | none => keyMem (some g) tc.dev_tax
    | some c => keyMem (some g) tc.dev_tax && (taxLookup tc.dev_tax g).contains c

/-- An annotator module as the orchestrator (`daf.py:process_in_memory`)
sees it: a name and an `annotate` call that mutates the shared entity list
in place.  The call is embedded state-passing style: it returns the entity
list as it stands when control returns, together with the traceback of an
exception if one was raised (Python leaves the partial in-place mutations
visible in that case). -/
structure Annotator where
  name : String
  run : List IP → Option String × List IP

/-- How a `process_in_memory` run can abort. -/
inductive RunError where
  /-- An annotator exception left uncaught (the sequential branch calls
  `module.annotate` with no `try`). -/
  | propagated (trace : String)
  /-- The aggregate `RuntimeError("Some modules failed...")` raised after
  the join when `thread_errors` is non-empty, carrying the
  `[module.__name__, traceback]` pairs it reports. -/
  | modulesFailed (failures : List (String × String))
deriving DecidableEq

/-- The sequential branch of the annotator loop: each `module.annotate` is
called directly, so the first exception aborts the loop (and the whole
procedure) immediately. -/
def runSequential (mods : List Annotator) (ips : List IP) : Option String × List IP :=
  match mods with
  | [] => (none, ips)
  | m :: rest =>
    match m.run ips with
    | (some trace, ips1) => (some trace, ips1)
    | (none, ips1) => runSequential rest ips1

/-- The threaded branch: every module runs inside `start_thread`, whose
`try/except` appends `[module.__name__, traceback.format_exc()]` to
`thread_errors` instead of aborting.  The thread pool is embedded as a
sequential schedule of the per-annotator units of work (annotators write
disjoint per-annotator keys, which is the discipline the design relies on);
returns the entity list after every module has run and the collected
`thread_errors`. -/
def runThreaded (mods : List Annotator) (ips : List IP) :
    List IP × List (String × String) :=
  mods.foldl
    (fun st m =>
      match m.run st.1 with
      | (some trace, ips1) => (ips1, st.2 ++ [(m.name, trace)])
      | (none, ips1) => (ips1, st.2))
    (ips, [])

/-- `daf.py:process_in_memory` from the start of the annotator loop on:
run every annotator (threaded or sequential per the `threads` flag), then —
only if no failure was recorded — fuse every entity with
`IP.perform_annotation`.  Export and statistics are outside the core. -/
def process_in_memory (tc : Taxonomy_checker) (threads : Bool)
    (mods : List Annotator) (ips : List IP) (min_annotators_count : Nat) :
    Option RunError × List IP :=
  if threads then
    let (ips1, errs) := runThreaded mods ips
    if errs.isEmpty then
      (none, ips1.map (fun ip => perform_annotation tc ip min_annotators_count))
    else
      (some (RunError.modulesFailed errs), ips1)
  else
    match runSequential mods ips with
    | (some trace, ips1) => (some (RunError.propagated trace), ips1)
    | (none, ips1) =>
      (none, ips1.map (fun ip => perform_annotation tc ip min_annotators_count))

/-- The entity list after every annotator in the list has run, in order. -/
def effects : List Annotator → List IP → List IP
  | [], ips => ips
  | m :: rest, ips => effects rest (m.run ips).2

/-- Every annotator in the list returns without raising, on the states it
actually encounters. -/
def allSucceed : List Annotator → List IP → Prop
  | [], _ => True
  | m :: rest, s => (m.run s).1 = none ∧ allSucceed rest (m.run s).2

/-- A concrete taxonomy for witnesses and counterexamples. -/
def tcEx : Taxonomy_checker :=
  { os_tax := [("linux", ["desktop", "server"]), ("windows", ["desktop"])]
    dev_tax := [("home", ["pc"]), ("srv", ["server"])] }

/-- `IP.__eq__`: an `IP` comparand is compared by address, any other
comparand is compared against the address itself. -/
def ip_eq (a : IP) (other : IP ⊕ String) : Bool :=
  match other with
  | Sum.inl o => a.ip_addr == o.ip_addr
  | Sum.inr v => a.ip_addr == v

/-- The `one_miss` entries one fusion pass appends for a given candidate
map, in merge order (group, class, family, type, version). -/
def fused_one_miss (anns : List (String × Annotation)) (minc : Nat) :
    List (List (String × Nat)) :=
  let vals := anns.map (fun p => p.2)
  ( merge_annotation (vals.map (fun a => a.group)) minc true).one_miss ++
  ( merge_annotation (vals.map (fun a => a._class)) minc false).one_miss ++
  ( merge_annotation (vals.map (fun a => a.os_family)) minc true).one_miss ++
  ( merge_annotation (vals.map (fun a => a.os_type)) minc true).one_miss ++
  ( merge_annotation (vals.map (fun a => a.os_version)) minc false).one_miss

/-- The `multi_device` entries one fusion pass appends for a given candidate
map, in merge order. -/
def fused_multi_device (anns : List (String × Annotation)) (minc : Nat) :
    List (String × List String) :=
  let vals := anns.map (fun p => p.2)
  ( merge_annotation (vals.map (fun a => a.group)) minc true).multi_device ++
  ( merge_annotation (vals.map (fun a => a._class)) minc false).multi_device ++
  ( merge_annotation (vals.map (fun a => a.os_family)) minc true).multi_device ++
  ( merge_annotation (vals.map (fun a => a.os_type)) minc true).multi_device ++
  ( merge_annotation (vals.map (fun a => a.os_version)) minc false).multi_device

/-- The five merged field values one fusion pass computes for a given
candidate map, in field order. -/
def mergedValues (anns : List (String × Annotation)) (minc : Nat) :
    Option String × Option String × Option String × Option String × Option String :=
  let vals := anns.map (fun p => p.2)
  (( merge_annotation (vals.map (fun a => a.group)) minc true).value,
   ( merge_annotation (vals.map (fun a => a._class)) minc false).value,
   ( merge_annotation (vals.map (fun a => a.os_family)) minc true).value,
   ( merge_annotation (vals.map (fun a => a.os_type)) minc true).value,
   ( merge_annotation (vals.map (fun a => a.os_version)) minc false).value)

/-- The final record one fusion pass (pre-override) produces. -/
def fusedFinal (tc : Taxonomy_checker) (ip : IP) (minc : Nat) : Annotation :=
  finalRec (fuse_candidates tc ip minc)

/-- Example entity: one ordinary candidate and a hand candidate agreeing on
`group = home`. -/
def ipHandVote : IP :=
  { mkIP "192.0.2.1" with
    annotations :=
      [("a1", mkAnnotation tcEx (some "home") none none none none),
       ("hand_annotator", mkAnnotation tcEx (some "home") none none none none)] }

/-- Example entity: two candidates with `group = home` and one dissenter
with `group = srv`, which makes a fusion pass append a `one_miss` entry. -/
def ipRerun : IP :=
  { mkIP "192.0.2.2" with
    annotations :=
      [("a1", mkAnnotation tcEx (some "home") none none none none),
       ("a2", mkAnnotation tcEx (some "home") none none none none),
       ("a3", mkAnnotation tcEx (some "srv") none none none none)] }

/-- Example hand candidate record asserting `os_family = windows`. -/
def handEx : Annotation :=
  mkAnnotation tcEx none none (some "windows") none none

/-- Example entity: two candidates with `os_family = linux` and a hand
candidate with `os_family = windows`. -/
def ipHandMiss : IP :=
  { mkIP "192.0.2.3" with
    annotations :=
      [("a1", mkAnnotation tcEx none none (some "linux") (some "desktop") none),
       ("a2", mkAnnotation tcEx none none (some "linux") (some "desktop") none),
       ("hand_annotator", handEx)] }

/-- Example entity with a populated final record, candidate map, evidence
map and all three audit lists, for the round-trip witness. -/
def ipRT : IP :=
  { mkIP "192.0.2.77" with
    final_annotation :=
      mkAnnotation tcEx (some "home") (some "pc") (some "linux") (some "desktop") (some "5.4")
    annotations := [("a1", mkAnnotation tcEx (some "home") none none none none)]
    data := [("a1", "rdns=host.example")]
    hand_miss := [("group", "srv", some "home")]
    one_miss := [[("home", 2), ("srv", 1)]]
    multi_device := [("IP:merge_annotation_fail", ["a", "b"])] }

/-- Example annotator that always raises. -/
def mBad : Annotator :=
  { name := "bad_annotator", run := fun ips => (some "boom", ips) }

/-- Example annotator that adds its candidate record to every entity. -/
def mGood : Annotator :=
  { name := "good_annotator"
    run := fun ips =>
      (none,
        ips.map (fun ip =>
          { ip with annotations := ip.annotations ++ [("good_annotator", emptyAnnotation)] })) }

/-- The dependency invariant of claim C9 on a Classification Record; a field
is "present" when it is Python-truthy (observable records never hold the
empty string, so this coincides with being non-`None` on them). -/
def annInv (a : Annotation) : Prop :=
  (truthy a._class = true → truthy a.group = true) ∧
  (truthy a.os_type = true ∨ truthy a.os_version = true → truthy a.os_family = true)

instance (a : Annotation) : Decidable (annInv a) := by
  unfold annInv
  infer_instance

/-- A record is in the image of `_validate_label` normalization and its two
halves each pass their taxonomy check or are entirely absent.  Every record
the program constructs satisfies this; it is exactly what export/load
round-tripping needs. -/
def wellFormed (tc : Taxonomy_checker) (a : Annotation) : Prop :=
  _validate_label a.group = a.group ∧
  _validate_label a._class = a._class ∧
  _validate_label a.os_family = a.os_family ∧
  _validate_label a.os_type = a.os_type ∧
  _validate_label a.os_version = a.os_version ∧
  (check_os tc a.os_family a.os_type a.os_version = true ∨
    (a.os_family = none ∧ a.os_type = none ∧ a.os_version = none)) ∧
  (check_device tc a.group a._class = true ∨ (a.group = none ∧ a._class = none))

instance (tc : Taxonomy_checker) (a : Annotation) : Decidable (wellFormed tc a) := by
  unfold wellFormed
  infer_instance

/-- `IP.perform_annotation` is the hand-override phase run on the output of
the all-candidates majority-vote phase. -/
lemma perform_phases (tc : Taxonomy_checker) (ip : IP) (minc : Nat) :
    perform_annotation tc ip minc = apply_hand_override (fuse_candidates tc ip minc) := by
  cases h : ip.annotations.find? (fun p => p.1 == "hand_annotator") <;>
    simp [ perform_annotation, apply_hand_override, fuse_candidates, h]

/-- With `nat_check = False` (`class` and `os_version` merges), no
`multi_device` entry is ever appended. -/
lemma merge_multi_nil (tags : List (Option String)) (minc : Nat) :
    ( merge_annotation tags minc false).multi_device = [] := by
  simp only [ merge_annotation]
  split <;> first | rfl | (split <;> rfl)

/-- C1 (counterexample): on an entity whose hand candidate agrees with one
ordinary candidate on `group = home` at threshold 2, fusing as the code does
differs from fusing over the non-hand candidates only: the code counts the
hand record in the vote (group fuses to `home`, no `hand_miss`), while the
claimed procedure fuses `group` to absent and then records a `hand_miss`
override. -/
theorem perform_ne_nonhand_vote :
    perform_annotation tcEx ipHandVote 2 ≠ perform_annotation_claimed tcEx ipHandVote 2 := by
  decide

/-- C1 (amended): the record of the hand-curated annotator IS an input to the
per-field majority vote — fusion merges over all candidate records,
including the hand one — and the hand-override correction is applied
strictly after that fusion phase. -/
theorem vote_over_all_then_override :
    ∀ (tc : Taxonomy_checker) (ip : IP) (minc : Nat),
      perform_annotation tc ip minc = apply_hand_override (fuse_candidates tc ip minc) :=
  fun tc ip minc => perform_phases tc ip minc

/-- C2 (counterexample): with candidate values `[a]` and threshold 2 on a
NAT-eligible field, the merge is in the claimed escalation case (the
majority count 1 is below the threshold), the result is absent, but NO
`multi_device` entry is appended, contrary to the claim. -/
theorem merge_escalation_cex :
    most_common (pyFilter [some "a"]) = [("a", 1)] ∧
    merge_annotation [some "a"] 2 true =
      { value := none, one_miss := [], multi_device := [] } := by
  decide

/-- C2 (amended): in the escalation case (more than two distinct values, or
the majority below threshold) the result is absent and no `one_miss` entry
is appended; a single `multi_device` entry tagged with the filtered value
list is appended iff the field is NAT-eligible AND more than one distinct
value remains — with exactly one distinct value below threshold nothing is
appended.  Non-eligible merges (`nat_check = False`, used for `class` and
`os_version`) never append `multi_device`, so a fusion pass only collects
`multi_device` entries from the `group`, `os_family` and `os_type` merges. -/
theorem merge_escalation_characterization :
    ∀ (tags : List (Option String)) (minc : Nat) (nat_check : Bool),
      (∀ v0 c0 rest, most_common (pyFilter tags) = (v0, c0) :: rest →
        (2 < ((v0, c0) :: rest).length ∨ c0 < minc) →
        merge_annotation tags minc nat_check =
          { value := none, one_miss := []
            multi_device :=
              if nat_check = true ∧ rest ≠ [] then
                [("IP:merge_annotation_fail", pyFilter tags)]
              else [] }) ∧
      ( merge_annotation tags minc false).multi_device = [] ∧
      (∀ (tc : Taxonomy_checker) (ip : IP),
        (fuse_candidates tc ip minc).multi_device =
          ip.multi_device ++
          ( merge_annotation ((ip.annotations.map (fun p => p.2)).map (fun a => a.group))
            minc true).multi_device ++
          ( merge_annotation ((ip.annotations.map (fun p => p.2)).map (fun a => a.os_family))
            minc true).multi_device ++
          ( merge_annotation ((ip.annotations.map (fun p => p.2)).map (fun a => a.os_type))
            minc true).multi_device) := by
  intro tags minc nat_check
  refine ⟨?_, merge_multi_nil tags minc, ?_⟩
  · intro v0 c0 rest h hesc
    rcases rest with _ | ⟨⟨v1, c1⟩, _ | ⟨⟨v2, c2⟩, rest2⟩⟩
    · have hlt : c0 < minc := by
        rcases hesc with h2 | h2
        · simp at h2
        · exact h2
      simp [ merge_annotation, h, Nat.not_le.mpr hlt]
    · have hlt : c0 < minc := by
        rcases hesc with h2 | h2
        · simp at h2
        · exact h2
      have hnc : ¬ (minc ≤ c0 ∧ c1 = 1) := fun hx => absurd hx.1 (Nat.not_le.mpr hlt)
      cases nat_check <;> simp [ merge_annotation, h, hnc]
    · cases nat_check <;> simp [ merge_annotation, h]
  · intro tc ip
    simp [fuse_candidates, merge_multi_nil]

/-- C2 (witness): three distinct values at threshold 2 on a NAT-eligible
field escalate: absent result and one `multi_device` entry tagged with the
filtered value list. -/
theorem merge_escalation_witness :
    merge_annotation [some "a", some "b", some "c"] 2 true =
      { value := none, one_miss := []
        multi_device := [("IP:merge_annotation_fail", ["a", "b", "c"])] } := by
  have h := (merge_escalation_characterization [some "a", some "b", some "c"] 2 true).1
    "a" 1 [("b", 1), ("c", 1)] (by decide) (by decide)
  simpa using h

/-- C3 (counterexample): on a concrete taxonomy, `check_os` with an absent
family returns `False` (and `check_device` with an absent group likewise),
while the claimed rule returns `True` there. -/
theorem check_absent_cex :
    check_os tcEx none none none = false ∧ check_os_claimed tcEx none none none = true ∧
    check_device tcEx none none = false ∧ check_device_claimed tcEx none none = true := by
  decide

/-- C3 (amended): `check_os(family, type, version)` is true iff `family` is
a known key of the OS taxonomy and `type` is absent or listed under it; an
absent family yields `False` (not `True` as claimed); `version` never
affects the result; and `check_device` obeys the symmetric rule, with an
absent group likewise yielding `False`. -/
theorem check_os_device_characterization :
    ∀ (tc : Taxonomy_checker) (f t v g c : Option String),
      (check_os tc f t v = true ↔
        ∃ fam, f = some fam ∧ keyMem f tc.os_tax = true ∧
          (t = none ∨ ∃ ty, t = some ty ∧ (taxLookup tc.os_tax fam).contains ty = true)) ∧
      (f = none → check_os tc f t v = false) ∧
      (∀ v2, check_os tc f t v = check_os tc f t v2) ∧
      (check_device tc g c = true ↔
        ∃ gr, g = some gr ∧ keyMem g tc.dev_tax = true ∧
          (c = none ∨ ∃ cl, c = some cl ∧ (taxLookup tc.dev_tax gr).contains cl = true)) ∧
      (g = none → check_device tc g c = false) := by
  intro tc f t v g c
  refine ⟨?_, ?_, fun v2 => rfl, ?_, ?_⟩
  · cases f <;> cases t <;> simp [check_os]
  · intro h
    subst h
    rfl
  · cases g <;> cases c <;> simp [check_device]
  · intro h
    subst h
    rfl

/-- C3 (witness): for the concrete taxonomy, an absent family with a
present type fails `check_os`, and an absent group with a present class
fails `check_device`. -/
theorem check_os_device_witness :
    check_os tcEx none (some "desktop") none = false ∧
    check_device tcEx none (some "pc") = false :=
  ⟨(check_os_device_characterization tcEx none (some "desktop") none none (some "pc")).2.1 rfl,
   (check_os_device_characterization tcEx none (some "desktop") none
      none (some "pc")).2.2.2.2 rfl⟩

/-- C4: after dropping absent values — no value: absent result, no audit;
one distinct value meeting the threshold: that value, no audit; two
distinct values with the majority meeting the threshold and a lone
dissenter: absent result and exactly one `one_miss` entry holding the full
count table. -/
theorem merge_consensus_one_miss :
    ∀ (tags : List (Option String)) (minc : Nat) (nat_check : Bool),
      (most_common (pyFilter tags) = [] →
        merge_annotation tags minc nat_check =
          { value := none, one_miss := [], multi_device := [] }) ∧
      (∀ v0 c0, most_common (pyFilter tags) = [(v0, c0)] → minc ≤ c0 →
        merge_annotation tags minc nat_check =
          { value := some v0, one_miss := [], multi_device := [] }) ∧
      (∀ v0 c0 v1 c1, most_common (pyFilter tags) = [(v0, c0), (v1, c1)] →
        minc ≤ c0 → c1 = 1 →
        merge_annotation tags minc nat_check =
          { value := none, one_miss := [[(v0, c0), (v1, c1)]], multi_device := [] }) := by
  intro tags minc nat_check
  refine ⟨?_, ?_, ?_⟩
  · intro h
    simp [ merge_annotation, h]
  · intro v0 c0 h hc
    simp [ merge_annotation, h, hc]
  · intro v0 c0 v1 c1 h hc h1
    simp [ merge_annotation, h, hc, h1]

/-- C4 (witness): candidate values `[a, a, b]` at threshold 2 yield an
absent result and exactly one `one_miss` entry with the count table
`[(a, 2), (b, 1)]`. -/
theorem merge_consensus_one_miss_witness :
    merge_annotation [some "a", some "a", some "b"] 2 true =
      { value := none, one_miss := [[("a", 2), ("b", 1)]], multi_device := [] } :=
  (merge_consensus_one_miss [some "a", some "a", some "b"] 2 true).2.2
    "a" 2 "b" 1 (by decide) (by decide) (by decide)

/-- `overrideMiss` as a boolean-guarded singleton, for relating the override
loop to a filtered field list. -/
lemma overrideMiss_eq (attr_name : String) (hv fv : Option String) :
    overrideMiss attr_name hv fv =
      if truthy hv && (hv != fv) then [(attr_name, hv.getD "", fv)] else [] := by
  by_cases h1 : truthy hv = true <;> by_cases h2 : hv = fv <;>
    simp [overrideMiss, h1, h2]

/-- C8: when a `hand_annotator` candidate is present, each of the five
final-record fields equals the hand value exactly when the hand value is
present (truthy) and differs from the fused (pre-override) value, and
otherwise keeps the fused value; and the `hand_miss` list is extended by
exactly one `(field, hand_value, fused_value)` entry per overridden field,
in field order. -/
theorem hand_override_fields :
    ∀ (tc : Taxonomy_checker) (ip : IP) (minc : Nat) (hp : String × Annotation),
      ip.annotations.find? (fun p => p.1 == "hand_annotator") = some hp →
      (∀ name ∈ fieldNames,
        fieldVal name (finalRec ( perform_annotation tc ip minc)) =
          if truthy (fieldVal name hp.2) = true ∧
              fieldVal name hp.2 ≠ fieldVal name (finalRec (fuse_candidates tc ip minc)) then
            fieldVal name hp.2
          else fieldVal name (finalRec (fuse_candidates tc ip minc))) ∧
      ( perform_annotation tc ip minc).hand_miss =
        ip.hand_miss ++
          (fieldNames.filter (fun name =>
            truthy (fieldVal name hp.2) &&
              (fieldVal name hp.2 != fieldVal name (finalRec (fuse_candidates tc ip minc))))).map
            (fun name =>
              (name, (fieldVal name hp.2).getD "",
                fieldVal name (finalRec (fuse_candidates tc ip minc)))) := by
  intro tc ip minc hp hfind
  have hfind2 : (fuse_candidates tc ip minc).annotations.find?
      (fun p => p.1 == "hand_annotator") = some hp := hfind
  constructor
  · intro name hname
    rw [perform_phases]
    simp only [fieldNames, List.mem_cons, List.not_mem_nil, or_false] at hname
    rcases hname with rfl | rfl | rfl | rfl | rfl <;>
      simp [apply_hand_override, hfind2, finalRec, fieldVal, ovRecord, overrideField]
  · rw [perform_phases]
    simp only [apply_hand_override, hfind2]
    show ip.hand_miss ++ ovMisses hp.2 (finalRec (fuse_candidates tc ip minc)) =
      ip.hand_miss ++
        (fieldNames.filter (fun name =>
          truthy (fieldVal name hp.2) &&
            (fieldVal name hp.2 != fieldVal name (finalRec (fuse_candidates tc ip minc))))).map
          (fun name =>
            (name, (fieldVal name hp.2).getD "",
              fieldVal name (finalRec (fuse_candidates tc ip minc))))
    generalize finalRec (fuse_candidates tc ip minc) = fin
    by_cases h1 : (truthy hp.2.group && (hp.2.group != fin.group)) = true <;>
    by_cases h2 : (truthy hp.2._class && (hp.2._class != fin._class)) = true <;>
    by_cases h3 : (truthy hp.2.os_family && (hp.2.os_family != fin.os_family)) = true <;>
    by_cases h4 : (truthy hp.2.os_type && (hp.2.os_type != fin.os_type)) = true <;>
    by_cases h5 : (truthy hp.2.os_version && (hp.2.os_version != fin.os_version)) = true <;>
    simp [ovMisses, overrideMiss_eq, fieldNames, fieldVal, h1, h2, h3, h4, h5]

/-- C8 (witness): on a concrete entity the hand `os_family = windows`
differs from the fused value (absent) and overrides it, appending exactly
the entry `(os_family, windows, None)`. -/
theorem hand_override_fields_witness :
    (fieldVal "os_family" (finalRec ( perform_annotation tcEx ipHandMiss 2)) =
      if truthy (fieldVal "os_family" handEx) = true ∧
          fieldVal "os_family" handEx ≠
            fieldVal "os_family" (finalRec (fuse_candidates tcEx ipHandMiss 2)) then
        fieldVal "os_family" handEx
      else fieldVal "os_family" (finalRec (fuse_candidates tcEx ipHandMiss 2))) ∧
    fieldVal "os_family" (finalRec ( perform_annotation tcEx ipHandMiss 2)) = some "windows" ∧
    ( perform_annotation tcEx ipHandMiss 2).hand_miss = [("os_family", "windows", none)] :=
  ⟨(hand_override_fields tcEx ipHandMiss 2 ("hand_annotator", handEx) (by decide)).1
      "os_family" (by decide),
   by decide, by decide⟩

lemma set_group (tc : Taxonomy_checker) (a : Annotation) (g c f t v : Option String) :
    ( set_annotation tc a g c f t v).group =
      if check_device tc (_validate_label g) (_validate_label c) = true then
        _validate_label g
      else a.group := by
  simp only [ set_annotation]
  split_ifs <;> rfl

lemma set_class (tc : Taxonomy_checker) (a : Annotation) (g c f t v : Option String) :
    ( set_annotation tc a g c f t v)._class =
      if check_device tc (_validate_label g) (_validate_label c) = true then
        _validate_label c
      else a._class := by
  simp only [ set_annotation]
  split_ifs <;> rfl

lemma set_fam (tc : Taxonomy_checker) (a : Annotation) (g c f t v : Option String) :
    ( set_annotation tc a g c f t v).os_family =
      if check_os tc (_validate_label f) (_validate_label t) (_validate_label v) = true then
        _validate_label f
      else a.os_family := by
  simp only [ set_annotation]
  split_ifs <;> rfl

lemma set_typ (tc : Taxonomy_checker) (a : Annotation) (g c f t v : Option String) :
    ( set_annotation tc a g c f t v).os_type =
      if check_os tc (_validate_label f) (_validate_label t) (_validate_label v) = true then
        _validate_label t
      else a.os_type := by
  simp only [ set_annotation]
  split_ifs <;> rfl

lemma set_ver (tc : Taxonomy_checker) (a : Annotation) (g c f t v : Option String) :
    ( set_annotation tc a g c f t v).os_version =
      if check_os tc (_validate_label f) (_validate_label t) (_validate_label v) = true then
        _validate_label v
      else a.os_version := by
  simp only [ set_annotation]
  split_ifs <;> rfl

lemma length_pyLower (s : String) : (pyLower s).length = s.length := by
  cases s with
  | mk d => simp [pyLower, String.length, List.length_map]

lemma validate_some_ne_empty :
    ∀ (l : Option String) (s : String), _validate_label l = some s → s ≠ "" := by
  intro l s h
  cases l with
  | none => simp [_validate_label] at h
  | some x =>
    by_cases hx : x.length = 0
    · simp [_validate_label, hx] at h
    · simp [_validate_label, hx] at h
      intro hs
      subst hs
      apply hx
      have hl := length_pyLower x
      rw [h] at hl
      simpa using hl.symm

lemma check_os_truthy_family (tc : Taxonomy_checker) (l vt vv : Option String) :
    check_os tc (_validate_label l) vt vv = true → truthy (_validate_label l) = true := by
  intro h
  cases hv : _validate_label l with
  | none => rw [hv] at h; simp [check_os] at h
  | some s =>
    have hs := validate_some_ne_empty l s hv
    simp [truthy, hs]

lemma check_device_truthy_group (tc : Taxonomy_checker) (l vc : Option String) :
    check_device tc (_validate_label l) vc = true → truthy (_validate_label l) = true := by
  intro h
  cases hv : _validate_label l with
  | none => rw [hv] at h; simp [check_device] at h
  | some s =>
    have hs := validate_some_ne_empty l s hv
    simp [truthy, hs]

lemma set_ann_inv (tc : Taxonomy_checker) (a : Annotation) (g c f t v : Option String)
    (ha : annInv a) : annInv ( set_annotation tc a g c f t v) := by
  constructor
  · rw [set_group, set_class]
    by_cases hd : check_device tc (_validate_label g) (_validate_label c) = true
    · intro _
      simp only [hd, if_true]
      exact check_device_truthy_group tc g (_validate_label c) hd
    · simpa [hd] using ha.1
  · rw [set_fam, set_typ, set_ver]
    by_cases ho : check_os tc (_validate_label f) (_validate_label t) (_validate_label v) = true
    · intro _
      simp only [ho, if_true]
      exact check_os_truthy_family tc f (_validate_label t) (_validate_label v) ho
    · simpa [ho] using ha.2

lemma overrideField_eq (hv fv : Option String) :
    overrideField hv fv = if truthy hv = true then hv else fv := by
  by_cases h1 : truthy hv = true <;> by_cases h2 : hv = fv <;>
    simp [overrideField, h1, h2]

lemma ov_inv (hand fin : Annotation) (hh : annInv hand) (hf : annInv fin) :
    annInv (ovRecord hand fin) := by
  constructor
  · intro hc
    simp only [ovRecord, overrideField_eq] at hc ⊢
    by_cases hcc : truthy hand._class = true
    · have hg := hh.1 hcc
      simp [hg]
    · rw [if_neg hcc] at hc
      have hg := hf.1 hc
      by_cases hcg : truthy hand.group = true <;> simp [hcg, hg]
  · intro hor
    simp only [ovRecord, overrideField_eq] at hor ⊢
    rcases hor with ht | hv
    · by_cases h4 : truthy hand.os_type = true
      · have h3 := hh.2 (Or.inl h4)
        simp [h3]
      · rw [if_neg h4] at ht
        have h3 := hf.2 (Or.inl ht)
        by_cases hfam : truthy hand.os_family = true <;> simp [hfam, h3]
    · by_cases h5 : truthy hand.os_version = true
      · have h3 := hh.2 (Or.inr h5)
        simp [h3]
      · rw [if_neg h5] at hv
        have h3 := hf.2 (Or.inr hv)
        by_cases hfam : truthy hand.os_family = true <;> simp [hfam, h3]

/-- C9: the dependency invariant — class only with group, os_type/os_version
only with os_family — holds after construction, is preserved by every
`set_annotation` call, and holds for the final record `perform_annotation`
produces whenever the current final record and its candidate
records satisfy it; moreover, when fusing a fresh final record, a fused
`class` is silently dropped if `group` fused to absent, and fused
`os_type`/`os_version` are dropped if `os_family` fused to absent. -/
theorem dependency_invariant :
    ∀ (tc : Taxonomy_checker) (g c f t v : Option String) (a : Annotation) (ip : IP)
      (minc : Nat),
      annInv ( mkAnnotation tc g c f t v) ∧
      (annInv a → annInv ( set_annotation tc a g c f t v)) ∧
      (annInv ip.final_annotation → (∀ p ∈ ip.annotations, annInv p.2) →
        annInv (finalRec ( perform_annotation tc ip minc))) ∧
      ( ip.final_annotation = emptyAnnotation →
        (( merge_annotation ((ip.annotations.map (fun p => p.2)).map (fun x => x.group))
            minc true).value = none →
          (finalRec (fuse_candidates tc ip minc))._class = none) ∧
        (( merge_annotation ((ip.annotations.map (fun p => p.2)).map (fun x => x.os_family))
            minc true).value = none →
          (finalRec (fuse_candidates tc ip minc)).os_type = none ∧
          (finalRec (fuse_candidates tc ip minc)).os_version = none)) := by
  intro tc g c f t v a ip minc
  refine ⟨?_, set_ann_inv tc a g c f t v, ?_, ?_⟩
  · exact set_ann_inv tc emptyAnnotation g c f t v (by constructor <;> simp [truthy, emptyAnnotation])
  · intro hfin hall
    rw [perform_phases]
    have hinner : annInv (finalRec (fuse_candidates tc ip minc)) :=
      set_ann_inv tc ip.final_annotation _ _ _ _ _ hfin
    cases hfind : ip.annotations.find? (fun p => p.1 == "hand_annotator") with
    | none =>
      have hfind2 : (fuse_candidates tc ip minc).annotations.find?
          (fun p => p.1 == "hand_annotator") = none := hfind
      simpa [apply_hand_override, hfind2, finalRec] using hinner
    | some hp =>
      have hfind2 : (fuse_candidates tc ip minc).annotations.find?
          (fun p => p.1 == "hand_annotator") = some hp := hfind
      have hmem : hp ∈ ip.annotations := List.mem_of_find?_eq_some hfind
      have hh := hall hp hmem
      simpa [apply_hand_override, hfind2, finalRec] using ov_inv hp.2 _ hh hinner
  · intro h0
    constructor
    · intro hg
      show ( set_annotation tc ip.final_annotation
        ( merge_annotation ((ip.annotations.map (fun p => p.2)).map (fun x => x.group))
          minc true).value
        ( merge_annotation ((ip.annotations.map (fun p => p.2)).map (fun x => x._class))
          minc false).value
        ( merge_annotation ((ip.annotations.map (fun p => p.2)).map (fun x => x.os_family))
          minc true).value
        ( merge_annotation ((ip.annotations.map (fun p => p.2)).map (fun x => x.os_type))
          minc true).value
        ( merge_annotation ((ip.annotations.map (fun p => p.2)).map (fun x => x.os_version))
          minc false).value)._class = none
      rw [set_class, hg]
      simp [_validate_label, check_device, h0, emptyAnnotation]
    · intro hf
      constructor
      · show ( set_annotation tc ip.final_annotation
          ( merge_annotation ((ip.annotations.map (fun p => p.2)).map (fun x => x.group))
            minc true).value
          ( merge_annotation ((ip.annotations.map (fun p => p.2)).map (fun x => x._class))
            minc false).value
          ( merge_annotation ((ip.annotations.map (fun p => p.2)).map (fun x => x.os_family))
            minc true).value
          ( merge_annotation ((ip.annotations.map (fun p => p.2)).map (fun x => x.os_type))
            minc true).value
          ( merge_annotation ((ip.annotations.map (fun p => p.2)).map (fun x => x.os_version))
            minc false).value).os_type = none
        rw [set_typ, hf]
        simp [_validate_label, check_os, h0, emptyAnnotation]
      · show ( set_annotation tc ip.final_annotation
          ( merge_annotation ((ip.annotations.map (fun p => p.2)).map (fun x => x.group))
            minc true).value
          ( merge_annotation ((ip.annotations.map (fun p => p.2)).map (fun x => x._class))
            minc false).value
          ( merge_annotation ((ip.annotations.map (fun p => p.2)).map (fun x => x.os_family))
            minc true).value
          ( merge_annotation ((ip.annotations.map (fun p => p.2)).map (fun x => x.os_type))
            minc true).value
          ( merge_annotation ((ip.annotations.map (fun p => p.2)).map (fun x => x.os_version))
            minc false).value).os_version = none
        rw [set_ver, hf]
        simp [_validate_label, check_os, h0, emptyAnnotation]

/-- C9 (witness): the invariant holds for the final record fused on a
concrete entity whose candidates satisfy it. -/
theorem dependency_invariant_witness :
    annInv (finalRec ( perform_annotation tcEx ipHandMiss 2)) :=
  (dependency_invariant tcEx none none none none none emptyAnnotation ipHandMiss 2).2.2.1
    (by decide) (by decide)

/-- C10: `IP.__eq__` compares by address only — equal iff the two entries
hold the same address, whatever their candidate maps, evidence, final
records or audit lists; a non-entry comparand is compared against the
address itself. -/
theorem ip_eq_by_address :
    ∀ a b : IP,
      (ip_eq a (Sum.inl b) = true ↔ a.ip_addr = b.ip_addr) ∧
      (∀ v : String, ip_eq a (Sum.inr v) = true ↔ a.ip_addr = v) := by
  intro a b
  constructor
  · simp [ip_eq]
  · intro v
    simp [ip_eq]

lemma apply_override_annots (ip : IP) : (apply_hand_override ip).annotations = ip.annotations := by
  cases h : ip.annotations.find? (fun p => p.1 == "hand_annotator") <;>
    simp [apply_hand_override, h]

lemma apply_override_addr (ip : IP) : (apply_hand_override ip).ip_addr = ip.ip_addr := by
  cases h : ip.annotations.find? (fun p => p.1 == "hand_annotator") <;>
    simp [apply_hand_override, h]

lemma apply_override_data (ip : IP) : (apply_hand_override ip).data = ip.data := by
  cases h : ip.annotations.find? (fun p => p.1 == "hand_annotator") <;>
    simp [apply_hand_override, h]

lemma apply_override_one_miss (ip : IP) : (apply_hand_override ip).one_miss = ip.one_miss := by
  cases h : ip.annotations.find? (fun p => p.1 == "hand_annotator") <;>
    simp [apply_hand_override, h]

lemma apply_override_multi (ip : IP) :
    (apply_hand_override ip).multi_device = ip.multi_device := by
  cases h : ip.annotations.find? (fun p => p.1 == "hand_annotator") <;>
    simp [apply_hand_override, h]

lemma perform_annots (tc : Taxonomy_checker) (ip : IP) (minc : Nat) :
    ( perform_annotation tc ip minc).annotations = ip.annotations := by
  rw [perform_phases, apply_override_annots]
  rfl

lemma perform_addr (tc : Taxonomy_checker) (ip : IP) (minc : Nat) :
    ( perform_annotation tc ip minc).ip_addr = ip.ip_addr := by
  rw [perform_phases, apply_override_addr]
  rfl

lemma perform_data (tc : Taxonomy_checker) (ip : IP) (minc : Nat) :
    ( perform_annotation tc ip minc).data = ip.data := by
  rw [perform_phases, apply_override_data]
  rfl

lemma perform_one_miss (tc : Taxonomy_checker) (ip : IP) (minc : Nat) :
    ( perform_annotation tc ip minc).one_miss =
      ip.one_miss ++ fused_one_miss ip.annotations minc := by
  rw [perform_phases, apply_override_one_miss]
  simp [fuse_candidates, fused_one_miss]

lemma perform_multi (tc : Taxonomy_checker) (ip : IP) (minc : Nat) :
    ( perform_annotation tc ip minc).multi_device =
      ip.multi_device ++ fused_multi_device ip.annotations minc := by
  rw [perform_phases, apply_override_multi]
  simp [fuse_candidates, fused_multi_device]

lemma perform_hand_miss_ext (tc : Taxonomy_checker) (ip : IP) (minc : Nat) :
    ∃ d, ( perform_annotation tc ip minc).hand_miss = ip.hand_miss ++ d := by
  rw [perform_phases]
  cases hfind : ip.annotations.find? (fun p => p.1 == "hand_annotator") with
  | none =>
    have hfind2 : (fuse_candidates tc ip minc).annotations.find?
        (fun p => p.1 == "hand_annotator") = none := hfind
    exact ⟨[], by simp [apply_hand_override, hfind, hfind2, fuse_candidates]⟩
  | some hp =>
    have hfind2 : (fuse_candidates tc ip minc).annotations.find?
        (fun p => p.1 == "hand_annotator") = some hp := hfind
    exact ⟨ovMisses hp.2 (fusedFinal tc ip minc),
      by simp [apply_hand_override, hfind, hfind2, fusedFinal, finalRec, fuse_candidates]⟩

lemma fusedFinal_set (tc : Taxonomy_checker) (ip : IP) (minc : Nat) :
    fusedFinal tc ip minc =
      set_annotation tc (finalRec ip)
        (mergedValues ip.annotations minc).1
        (mergedValues ip.annotations minc).2.1
        (mergedValues ip.annotations minc).2.2.1
        (mergedValues ip.annotations minc).2.2.2.1
        (mergedValues ip.annotations minc).2.2.2.2 := rfl

lemma perform_final_formula (tc : Taxonomy_checker) (ip : IP) (minc : Nat) :
    finalRec ( perform_annotation tc ip minc) =
      (match ip.annotations.find? (fun p => p.1 == "hand_annotator") with
       | none => fusedFinal tc ip minc
       | some hp => ovRecord hp.2 (fusedFinal tc ip minc)) := by
  rw [perform_phases]
  cases hfind : ip.annotations.find? (fun p => p.1 == "hand_annotator") with
  | none =>
    have hfind2 : (fuse_candidates tc ip minc).annotations.find?
        (fun p => p.1 == "hand_annotator") = none := hfind
    simp [apply_hand_override, hfind2, finalRec, fusedFinal]
  | some hp =>
    have hfind2 : (fuse_candidates tc ip minc).annotations.find?
        (fun p => p.1 == "hand_annotator") = some hp := hfind
    simp [apply_hand_override, hfind2, finalRec, fusedFinal]

lemma overrideField_idem (hv x : Option String) :
    overrideField hv (overrideField hv x) = overrideField hv x := by
  by_cases h : truthy hv = true <;> simp [overrideField_eq, h]

lemma set_set (tc : Taxonomy_checker) (a : Annotation) (g c f t v : Option String) :
    set_annotation tc ( set_annotation tc a g c f t v) g c f t v =
      set_annotation tc a g c f t v := by
  by_cases ho : check_os tc (_validate_label f) (_validate_label t) (_validate_label v) = true <;>
  by_cases hd : check_device tc (_validate_label g) (_validate_label c) = true <;>
    simp [ set_annotation, ho, hd]

lemma ov_set_idem (tc : Taxonomy_checker) (hand a : Annotation) (g c f t v : Option String) :
    ovRecord hand
        ( set_annotation tc (ovRecord hand ( set_annotation tc a g c f t v)) g c f t v) =
      ovRecord hand ( set_annotation tc a g c f t v) := by
  by_cases ho : check_os tc (_validate_label f) (_validate_label t) (_validate_label v) = true <;>
  by_cases hd : check_device tc (_validate_label g) (_validate_label c) = true <;>
    simp [ set_annotation, ovRecord, ho, hd, overrideField_idem]

lemma perform_final_idem (tc : Taxonomy_checker) (ip : IP) (minc : Nat) :
    finalRec ( perform_annotation tc ( perform_annotation tc ip minc) minc) =
      finalRec ( perform_annotation tc ip minc) := by
  have hA : ( perform_annotation tc ip minc).annotations = ip.annotations :=
    perform_annots tc ip minc
  rw [perform_final_formula tc ( perform_annotation tc ip minc) minc, hA,
    perform_final_formula tc ip minc]
  cases hfind : ip.annotations.find? (fun p => p.1 == "hand_annotator") with
  | none =>
    rw [fusedFinal_set tc ( perform_annotation tc ip minc) minc, hA,
      show finalRec ( perform_annotation tc ip minc) = fusedFinal tc ip minc from by
        rw [perform_final_formula tc ip minc, hfind],
      fusedFinal_set tc ip minc]
    exact set_set tc (finalRec ip) _ _ _ _ _
  | some hp =>
    rw [fusedFinal_set tc ( perform_annotation tc ip minc) minc, hA,
      show finalRec ( perform_annotation tc ip minc) = ovRecord hp.2 (fusedFinal tc ip minc)
        from by rw [perform_final_formula tc ip minc, hfind],
      fusedFinal_set tc ip minc]
    exact ov_set_idem tc hp.2 (finalRec ip) _ _ _ _ _

/-- C5 (counterexample): on an entity where fusion records a `one_miss`
(candidate groups `home, home, srv` at threshold 2), a second sequential
`perform_annotation` appends the same entry again — the audit lists are not
the same after the rerun, so the entity state is not idempotent. -/
theorem rerun_not_idempotent :
    ( perform_annotation tcEx ipRerun 2).one_miss = [[("home", 2), ("srv", 1)]] ∧
    ( perform_annotation tcEx ( perform_annotation tcEx ipRerun 2) 2).one_miss =
      [[("home", 2), ("srv", 1)], [("home", 2), ("srv", 1)]] ∧
    perform_annotation tcEx ( perform_annotation tcEx ipRerun 2) 2 ≠
      perform_annotation tcEx ipRerun 2 := by
  decide

/-- C5 (amended): a second sequential `perform_annotation` with the same
threshold leaves the address, candidate map, evidence map and the final
Classification Record exactly as after the first run, but the audit lists
grow: the rerun appends the same `one_miss` and `multi_device` entries a
second time, and appends zero or more further `hand_miss` entries. -/
theorem rerun_fusion_behavior :
    ∀ (tc : Taxonomy_checker) (ip : IP) (minc : Nat),
      ( perform_annotation tc ( perform_annotation tc ip minc) minc).ip_addr =
        ( perform_annotation tc ip minc).ip_addr ∧
      ( perform_annotation tc ( perform_annotation tc ip minc) minc).annotations =
        ( perform_annotation tc ip minc).annotations ∧
      ( perform_annotation tc ( perform_annotation tc ip minc) minc).data =
        ( perform_annotation tc ip minc).data ∧
      finalRec ( perform_annotation tc ( perform_annotation tc ip minc) minc) =
        finalRec ( perform_annotation tc ip minc) ∧
      ( perform_annotation tc ( perform_annotation tc ip minc) minc).one_miss =
        ( perform_annotation tc ip minc).one_miss ++ fused_one_miss ip.annotations minc ∧
      ( perform_annotation tc ( perform_annotation tc ip minc) minc).multi_device =
        ( perform_annotation tc ip minc).multi_device ++ fused_multi_device ip.annotations minc ∧
      (∃ d, ( perform_annotation tc ( perform_annotation tc ip minc) minc).hand_miss =
        ( perform_annotation tc ip minc).hand_miss ++ d) := by
  intro tc ip minc
  have hA : ( perform_annotation tc ip minc).annotations = ip.annotations :=
    perform_annots tc ip minc
  refine ⟨?_, ?_, ?_, perform_final_idem tc ip minc, ?_, ?_,
    perform_hand_miss_ext tc ( perform_annotation tc ip minc) minc⟩
  · rw [perform_addr tc ( perform_annotation tc ip minc) minc]
  · rw [perform_annots tc ( perform_annotation tc ip minc) minc]
  · rw [perform_data tc ( perform_annotation tc ip minc) minc]
  · rw [perform_one_miss tc ( perform_annotation tc ip minc) minc, hA]
  · rw [perform_multi tc ( perform_annotation tc ip minc) minc, hA]

lemma runThreaded_aux :
    ∀ (mods : List Annotator) (ips : List IP) (errs : List (String × String)),
      (mods.foldl
        (fun st m =>
          match m.run st.1 with
          | (some trace, ips1) => (ips1, st.2 ++ [(m.name, trace)])
          | (none, ips1) => (ips1, st.2)) (ips, errs)).1 = effects mods ips := by
  intro mods
  induction mods with
  | nil => intro ips errs; rfl
  | cons m rest ih =>
    intro ips errs
    rcases hm : m.run ips with ⟨e, ips1⟩
    cases e <;> simp [List.foldl, effects, hm, ih]

lemma runThreaded_fst (mods : List Annotator) (ips : List IP) :
    (runThreaded mods ips).1 = effects mods ips :=
  runThreaded_aux mods ips []

lemma runSequential_ok :
    ∀ (mods : List Annotator) (ips : List IP),
      allSucceed mods ips → runSequential mods ips = (none, effects mods ips) := by
  intro mods
  induction mods with
  | nil => intro ips _; rfl
  | cons m rest ih =>
    intro ips h
    rcases h with ⟨h1, h2⟩
    rcases hm : m.run ips with ⟨e, ips1⟩
    rw [hm] at h1 h2
    simp only at h1
    subst h1
    simp [runSequential, hm, ih ips1 h2, effects]

lemma runSequential_fail :
    ∀ (pre : List Annotator) (m : Annotator) (post : List Annotator) (ips : List IP)
      (trace : String),
      allSucceed pre ips → (m.run (effects pre ips)).1 = some trace →
      runSequential (pre ++ m :: post) ips = (some trace, (m.run (effects pre ips)).2) := by
  intro pre
  induction pre with
  | nil =>
    intro m post ips trace _ hm
    simp only [effects] at hm ⊢
    rcases hrun : m.run ips with ⟨e, ips1⟩
    rw [hrun] at hm
    simp only at hm
    subst hm
    simp [runSequential, hrun]
  | cons p pre ih =>
    intro m post ips trace hall hm
    rcases hall with ⟨h1, h2⟩
    rcases hp : p.run ips with ⟨e, ips1⟩
    rw [hp] at h1 h2
    simp only at h1
    subst h1
    simp only [effects] at hm ⊢
    rw [hp] at hm
    simp only [List.cons_append, runSequential, hp]
    exact ih m post ips1 trace h2 hm

/-- C6 (counterexample): in the sequential mode a raising annotator is NOT
captured: the run aborts with the own exception of the annotator (not an
aggregate error naming the failing annotators) and the sibling annotator
never runs — its candidate is absent from every ledger entry — whereas the
threaded mode on the same input captures the failure, reports the
aggregate, and keeps the candidates of the sibling. -/
theorem sequential_mode_cex :
    process_in_memory tcEx false [mBad, mGood] [mkIP "10.0.0.1"] 2 =
      (some (RunError.propagated "boom"), [mkIP "10.0.0.1"]) ∧
    (process_in_memory tcEx false [mBad, mGood] [mkIP "10.0.0.1"] 2).1 ≠
      some (RunError.modulesFailed [("bad_annotator", "boom")]) ∧
    (∀ entry ∈ (process_in_memory tcEx false [mBad, mGood] [mkIP "10.0.0.1"] 2).2,
      entry.annotations = []) ∧
    process_in_memory tcEx true [mBad, mGood] [mkIP "10.0.0.1"] 2 =
      (some (RunError.modulesFailed [("bad_annotator", "boom")]),
        [{ mkIP "10.0.0.1" with annotations := [("good_annotator", emptyAnnotation)] }]) := by
  decide

/-- C6 (amended): in the threaded mode every annotator runs regardless of
sibling failures, captured failures abort the run with the aggregate error
carrying the recorded (name, traceback) pairs, fusion is skipped on every
entity in that case while all annotator writes remain, and a clean run
fuses every entity; in the sequential mode the first exception propagates
immediately — the remaining annotators never run and no aggregate error is
produced — while an exception-free sequential run behaves like a clean
threaded run. -/
theorem orchestrator_isolation :
    ∀ (tc : Taxonomy_checker) (mods : List Annotator) (ips : List IP) (minc : Nat),
      (runThreaded mods ips).1 = effects mods ips ∧
      ((runThreaded mods ips).2 = [] →
        process_in_memory tc true mods ips minc =
          (none, (effects mods ips).map (fun ip => perform_annotation tc ip minc))) ∧
      ((runThreaded mods ips).2 ≠ [] →
        process_in_memory tc true mods ips minc =
          (some (RunError.modulesFailed (runThreaded mods ips).2), effects mods ips)) ∧
      (∀ pre m post trace, mods = pre ++ m :: post → allSucceed pre ips →
        (m.run (effects pre ips)).1 = some trace →
        process_in_memory tc false mods ips minc =
          (some (RunError.propagated trace), (m.run (effects pre ips)).2)) ∧
      (allSucceed mods ips →
        process_in_memory tc false mods ips minc =
          (none, (effects mods ips).map (fun ip => perform_annotation tc ip minc))) := by
  intro tc mods ips minc
  have hT := runThreaded_fst mods ips
  refine ⟨hT, ?_, ?_, ?_, ?_⟩
  · intro he
    rcases hR : runThreaded mods ips with ⟨ips1, errs⟩
    rw [hR] at hT he
    simp only at hT he
    subst he
    simp [process_in_memory, hR, hT]
  · intro hne
    rcases hR : runThreaded mods ips with ⟨ips1, errs⟩
    rw [hR] at hT hne
    simp only at hT hne
    rcases errs with _ | ⟨e0, erest⟩
    · exact absurd rfl hne
    · simp [process_in_memory, hR, hT]
  · intro pre m post trace hmods hpre hrun
    subst hmods
    have hseq := runSequential_fail pre m post ips trace hpre hrun
    simp [process_in_memory, hseq]
  · intro hall
    have hseq := runSequential_ok mods ips hall
    simp [process_in_memory, hseq]

/-- C6 (witness): the sequential-abort clause applied to the concrete
failing annotator as first module. -/
theorem orchestrator_isolation_witness :
    process_in_memory tcEx false [mBad, mGood] [mkIP "198.51.100.7"] 2 =
      (some (RunError.propagated "boom"), (mBad.run (effects [] [mkIP "198.51.100.7"])).2) :=
  (orchestrator_isolation tcEx [mBad, mGood] [mkIP "198.51.100.7"] 2).2.2.2.1
    [] mBad [mGood] "boom" rfl trivial (by decide)

lemma toNat_ofNat_valid (n : Nat) (h : n.isValidChar) : (Char.ofNat n).toNat = n := by
  rw [Char.ofNat, dif_pos h]
  simp [Char.ofNatAux, Char.toNat, UInt32.toNat, BitVec.toNat_ofNatLt]

lemma toLower_idem (ch : Char) : ch.toLower.toLower = ch.toLower := by
  unfold Char.toLower
  by_cases h : 65 ≤ ch.toNat ∧ ch.toNat ≤ 90
  · have hv : (ch.toNat + 32).isValidChar := by
      constructor
      omega
    rw [if_pos h, toNat_ofNat_valid _ hv, if_neg (by omega)]
  · rw [if_neg h, if_neg h]

lemma pyLower_idem (s : String) : pyLower (pyLower s) = pyLower s := by
  cases s with
  | mk d =>
    simp only [pyLower, List.map_map]
    congr 1
    exact List.map_congr_left (fun ch _ => toLower_idem ch)

lemma validate_validate (l : Option String) :
    _validate_label (_validate_label l) = _validate_label l := by
  cases l with
  | none => rfl
  | some s =>
    by_cases hs : s.length = 0
    · simp [_validate_label, hs]
    · have hlen : (pyLower s).length = s.length := length_pyLower s
      simp [_validate_label, hs, hlen, pyLower_idem]

lemma ann_ext {a b : Annotation} (hg : a.group = b.group) (hc : a._class = b._class)
    (hf : a.os_family = b.os_family) (ht : a.os_type = b.os_type)
    (hv : a.os_version = b.os_version) : a = b := by
  cases a
  cases b
  simp_all

lemma ann_roundtrip (tc : Taxonomy_checker) (a : Annotation) (h : wellFormed tc a) :
    loadAnnotation tc ( exportAnnotation a) = a := by
  obtain ⟨w1, w2, w3, w4, w5, wos, wdev⟩ := h
  apply ann_ext
  · show ( set_annotation tc emptyAnnotation a.group a._class a.os_family a.os_type
      a.os_version).group = a.group
    rw [set_group, w1, w2]
    rcases wdev with hdev | ⟨hg2, hc2⟩
    · rw [if_pos hdev]
    · rw [hg2, hc2]
      simp [check_device, emptyAnnotation]
  · show ( set_annotation tc emptyAnnotation a.group a._class a.os_family a.os_type
      a.os_version)._class = a._class
    rw [set_class, w1, w2]
    rcases wdev with hdev | ⟨hg2, hc2⟩
    · rw [if_pos hdev]
    · rw [hg2, hc2]
      simp [check_device, emptyAnnotation]
  · show ( set_annotation tc emptyAnnotation a.group a._class a.os_family a.os_type
      a.os_version).os_family = a.os_family
    rw [set_fam, w3, w4, w5]
    rcases wos with hos | ⟨hf2, ht2, hv2⟩
    · rw [if_pos hos]
    · rw [hf2, ht2, hv2]
      simp [check_os, emptyAnnotation]
  · show ( set_annotation tc emptyAnnotation a.group a._class a.os_family a.os_type
      a.os_version).os_type = a.os_type
    rw [set_typ, w3, w4, w5]
    rcases wos with hos | ⟨hf2, ht2, hv2⟩
    · rw [if_pos hos]
    · rw [hf2, ht2, hv2]
      simp [check_os, emptyAnnotation]
  · show ( set_annotation tc emptyAnnotation a.group a._class a.os_family a.os_type
      a.os_version).os_version = a.os_version
    rw [set_ver, w3, w4, w5]
    rcases wos with hos | ⟨hf2, ht2, hv2⟩
    · rw [if_pos hos]
    · rw [hf2, ht2, hv2]
      simp [check_os, emptyAnnotation]

lemma ip_ext {a b : IP} (h1 : a.ip_addr = b.ip_addr) (h2 : finalRec a = finalRec b)
    (h3 : a.annotations = b.annotations) (h4 : a.data = b.data)
    (h5 : a.hand_miss = b.hand_miss) (h6 : a.one_miss = b.one_miss)
    (h7 : a.multi_device = b.multi_device) : a = b := by
  cases a
  cases b
  simp_all [finalRec]

lemma ip_roundtrip (tc : Taxonomy_checker) (ip : IP) (hfin : wellFormed tc (finalRec ip))
    (hall : ∀ p ∈ ip.annotations, wellFormed tc p.2) : loadIP tc (exportIP ip) = ip := by
  apply ip_ext
  · rfl
  · show loadAnnotation tc ( exportAnnotation (finalRec ip)) = finalRec ip
    exact ann_roundtrip tc (finalRec ip) hfin
  · show (ip.annotations.map (fun p => (p.1, exportAnnotation p.2))).map
      (fun q => (q.1, loadAnnotation tc q.2)) = ip.annotations
    rw [List.map_map]
    have hmap : ∀ p ∈ ip.annotations,
        ((fun q : String × AnnotationDict => (q.1, loadAnnotation tc q.2)) ∘
          fun p : String × Annotation => (p.1, exportAnnotation p.2)) p = id p := by
      intro p hp
      simp [Function.comp, ann_roundtrip tc p.2 (hall p hp)]
    rw [List.map_congr_left hmap, List.map_id]
  · rfl
  · rfl
  · rfl
  · rfl

lemma mk_wellFormed (tc : Taxonomy_checker) (g c f t v : Option String) :
    wellFormed tc ( mkAnnotation tc g c f t v) := by
  simp only [ mkAnnotation]
  refine ⟨?_, ?_, ?_, ?_, ?_, ?_, ?_⟩
  · rw [set_group]
    by_cases hd : check_device tc (_validate_label g) (_validate_label c) = true
    · rw [if_pos hd]
      exact validate_validate g
    · rw [if_neg hd]
      rfl
  · rw [set_class]
    by_cases hd : check_device tc (_validate_label g) (_validate_label c) = true
    · rw [if_pos hd]
      exact validate_validate c
    · rw [if_neg hd]
      rfl
  · rw [set_fam]
    by_cases ho : check_os tc (_validate_label f) (_validate_label t) (_validate_label v) = true
    · rw [if_pos ho]
      exact validate_validate f
    · rw [if_neg ho]
      rfl
  · rw [set_typ]
    by_cases ho : check_os tc (_validate_label f) (_validate_label t) (_validate_label v) = true
    · rw [if_pos ho]
      exact validate_validate t
    · rw [if_neg ho]
      rfl
  · rw [set_ver]
    by_cases ho : check_os tc (_validate_label f) (_validate_label t) (_validate_label v) = true
    · rw [if_pos ho]
      exact validate_validate v
    · rw [if_neg ho]
      rfl
  · rw [set_fam, set_typ, set_ver]
    by_cases ho : check_os tc (_validate_label f) (_validate_label t) (_validate_label v) = true
    · left
      simp [ho]
    · right
      simp [ho, emptyAnnotation]
  · rw [set_group, set_class]
    by_cases hd : check_device tc (_validate_label g) (_validate_label c) = true
    · left
      simp [hd]
    · right
      simp [hd, emptyAnnotation]

lemma mem_insertByCount (p q : String × Nat) (l : List (String × Nat)) :
    p ∈ insertByCount q l ↔ p = q ∨ p ∈ l := by
  induction l with
  | nil => simp [insertByCount]
  | cons y ys ih =>
    by_cases h : q.2 ≤ y.2 <;> simp [insertByCount, h, ih] <;> tauto

lemma mem_sortAux :
    ∀ (l acc : List (String × Nat)) (p : String × Nat),
      p ∈ acc ∨ p ∈ l → p ∈ l.foldl (fun acc x => insertByCount x acc) acc := by
  intro l
  induction l with
  | nil =>
    intro acc p h
    simpa using h
  | cons x xs ih =>
    intro acc p h
    simp only [List.foldl_cons]
    apply ih
    rcases h with h | h
    · exact Or.inl ((mem_insertByCount p x acc).mpr (Or.inr h))
    · rcases List.mem_cons.mp h with rfl | h2
      · exact Or.inl ((mem_insertByCount p p acc).mpr (Or.inl rfl))
      · exact Or.inr h2

lemma mem_most_common (l : List String) (p : String × Nat) (h : p ∈ tally l) :
    p ∈ most_common l :=
  mem_sortAux (tally l) [] p (Or.inr h)

lemma mem_tally_aux :
    ∀ (l : List String) (acc : List (String × Nat)) (x : String),
      x ∈ l ∨ (∃ n, (x, n) ∈ acc) →
      ∃ n, (x, n) ∈ l.foldl
        (fun acc s =>
          if acc.any (fun p => p.1 == s) then
            acc.map (fun p => if p.1 == s then (p.1, p.2 + 1) else p)
          else acc ++ [(s, 1)]) acc := by
  intro l
  induction l with
  | nil =>
    intro acc x h
    simpa using h
  | cons s rest ih =>
    intro acc x h
    simp only [List.foldl_cons]
    apply ih
    have hstep : ∀ y n, (y, n) ∈ acc →
        ∃ n2, (y, n2) ∈ (if acc.any (fun p => p.1 == s) then
          acc.map (fun p => if p.1 == s then (p.1, p.2 + 1) else p) else acc ++ [(s, 1)]) := by
      intro y n hy
      by_cases ha : acc.any (fun p => p.1 == s) = true
      · rw [if_pos ha]
        by_cases hys : y = s
        · refine ⟨n + 1, ?_⟩
          have := List.mem_map_of_mem
            (fun p : String × Nat => if p.1 == s then (p.1, p.2 + 1) else p) hy
          simpa [hys] using this
        · refine ⟨n, ?_⟩
          have := List.mem_map_of_mem
            (fun p : String × Nat => if p.1 == s then (p.1, p.2 + 1) else p) hy
          simpa [hys] using this
      · rw [if_neg ha]
        exact ⟨n, List.mem_append_left _ hy⟩
    rcases h with h | ⟨n, hn⟩
    · rcases List.mem_cons.mp h with rfl | h2
      · right
        by_cases ha : acc.any (fun p => p.1 == x) = true
        · rw [if_pos ha]
          rcases List.any_eq_true.mp ha with ⟨p, hp, hps⟩
          have hpx : p.1 = x := by simpa using hps
          refine ⟨p.2 + 1, ?_⟩
          have := List.mem_map_of_mem
            (fun q : String × Nat => if q.1 == x then (q.1, q.2 + 1) else q) hp
          simpa [hpx] using this
        · rw [if_neg ha]
          exact ⟨1, List.mem_append_right _ (by simp)⟩
      · exact Or.inl h2
    · right
      exact hstep x n hn

lemma mem_tally (l : List String) (x : String) (h : x ∈ l) : ∃ n, (x, n) ∈ tally l :=
  mem_tally_aux l [] x (Or.inl h)

lemma most_common_singleton (l : List String) (v : String) (c : Nat)
    (h : most_common l = [(v, c)]) : ∀ x ∈ l, x = v := by
  intro x hx
  obtain ⟨n, hn⟩ := mem_tally l x hx
  have hmem := mem_most_common l (x, n) hn
  rw [h] at hmem
  simp at hmem
  exact hmem.1

lemma merge_value_singleton (tags : List (Option String)) (minc : Nat) (nc : Bool) (v : String)
    (h : ( merge_annotation tags minc nc).value = some v) : ∀ x ∈ pyFilter tags, x = v := by
  rcases hmc : most_common (pyFilter tags) with
    _ | ⟨⟨v0, c0⟩, _ | ⟨⟨v1, c1⟩, _ | ⟨⟨v2, c2⟩, rest⟩⟩⟩
  · simp [ merge_annotation, hmc] at h
  · simp only [ merge_annotation, hmc] at h
    by_cases hc : minc ≤ c0
    · rw [if_pos hc] at h
      simp at h
      subst h
      exact most_common_singleton _ _ _ hmc
    · rw [if_neg hc] at h
      simp at h
  · simp only [ merge_annotation, hmc] at h
    split_ifs at h <;> simp at h
  · simp only [ merge_annotation, hmc] at h
    split_ifs at h <;> simp at h

lemma mem_pyFilter (tags : List (Option String)) (s : String) (hs : s ≠ "")
    (h : some s ∈ tags) : s ∈ pyFilter tags := by
  simp only [pyFilter, List.mem_filterMap]
  exact ⟨some s, h, by simp [hs]⟩

lemma hand_vote_value (ip : IP) (hp : String × Annotation)
    (hfind : ip.annotations.find? (fun p => p.1 == "hand_annotator") = some hp)
    (getF : Annotation → Option String) (minc : Nat) (nc : Bool) (v s : String)
    (hmv : ( merge_annotation ((ip.annotations.map (fun p => p.2)).map getF) minc nc).value =
      some v)
    (hh : getF hp.2 = some s) (hs : s ≠ "") : v = s := by
  have hmem : hp ∈ ip.annotations := List.mem_of_find?_eq_some hfind
  have hin : s ∈ pyFilter ((ip.annotations.map (fun p => p.2)).map getF) := by
    apply mem_pyFilter _ _ hs
    exact List.mem_map.mpr ⟨hp.2, List.mem_map.mpr ⟨hp, hmem, rfl⟩, hh⟩
  exact (merge_value_singleton _ minc nc v hmv s hin).symm

lemma truthy_some (x : Option String) (h : truthy x = true) : ∃ s, x = some s ∧ s ≠ "" := by
  cases x with
  | none => simp [truthy] at h
  | some s =>
    refine ⟨s, rfl, ?_⟩
    simpa [truthy] using h

lemma fixpoint_none (x : Option String) (hfix : _validate_label x = x)
    (hnt : ¬ truthy x = true) : x = none := by
  cases x with
  | none => rfl
  | some s =>
    have hs := validate_some_ne_empty (some s) s hfix
    simp [truthy, hs] at hnt

lemma fixpoint_pyLower (s : String) (h : _validate_label (some s) = some s) : pyLower s = s := by
  by_cases hs : s.length = 0
  · simp [_validate_label, hs] at h
  · simp [_validate_label, hs] at h
    exact h

lemma validate_eq_some_of (l : Option String) (s : String) (h : _validate_label l = some s) :
    ∃ raw, l = some raw ∧ pyLower raw = s := by
  cases l with
  | none => simp [_validate_label] at h
  | some x =>
    by_cases hx : x.length = 0
    · simp [_validate_label, hx] at h
    · simp [_validate_label, hx] at h
      exact ⟨x, rfl, h⟩

lemma check_os_key (tc : Taxonomy_checker) (g0 : String) (t v : Option String)
    (h : check_os tc (some g0) t v = true) : keyMem (some g0) tc.os_tax = true := by
  cases t with
  | none => simpa [check_os] using h
  | some t0 =>
    have h2 : keyMem (some g0) tc.os_tax = true ∧
        (taxLookup tc.os_tax g0).contains t0 = true := by simpa [check_os] using h
    exact h2.1

lemma check_device_key (tc : Taxonomy_checker) (g0 : String) (c : Option String)
    (h : check_device tc (some g0) c = true) : keyMem (some g0) tc.dev_tax = true := by
  cases c with
  | none => simpa [check_device] using h
  | some c0 =>
    have h2 : keyMem (some g0) tc.dev_tax = true ∧
        (taxLookup tc.dev_tax g0).contains c0 = true := by simpa [check_device] using h
    exact h2.1

/-- Hand override applied to a freshly fused record keeps it well-formed:
the hand record is itself taxonomy-valid, and — because the hand record
votes — a present fused value always agrees with a present hand value, so
no invalid mixed pair can arise. -/
lemma ov_mk_wellFormed (tc : Taxonomy_checker) (hand : Annotation)
    (Lg Lc Lf Lt Lv : Option String)
    (hw : wellFormed tc hand)
    (hcg : ∀ s v2, hand.group = some s → s ≠ "" → Lg = some v2 → v2 = s)
    (hcf : ∀ s v2, hand.os_family = some s → s ≠ "" → Lf = some v2 → v2 = s) :
    wellFormed tc (ovRecord hand ( set_annotation tc emptyAnnotation Lg Lc Lf Lt Lv)) := by
  obtain ⟨w1, w2, w3, w4, w5, wos, wdev⟩ := hw
  obtain ⟨m1, m2, m3, m4, m5, mos, mdev⟩ := mk_wellFormed tc Lg Lc Lf Lt Lv
  refine ⟨?_, ?_, ?_, ?_, ?_, ?_, ?_⟩
  · simp only [ovRecord]
    rw [overrideField_eq]
    by_cases hx : truthy hand.group = true
    · rw [if_pos hx]
      exact w1
    · rw [if_neg hx]
      exact m1
  · simp only [ovRecord]
    rw [overrideField_eq]
    by_cases hx : truthy hand._class = true
    · rw [if_pos hx]
      exact w2
    · rw [if_neg hx]
      exact m2
  · simp only [ovRecord]
    rw [overrideField_eq]
    by_cases hx : truthy hand.os_family = true
    · rw [if_pos hx]
      exact w3
    · rw [if_neg hx]
      exact m3
  · simp only [ovRecord]
    rw [overrideField_eq]
    by_cases hx : truthy hand.os_type = true
    · rw [if_pos hx]
      exact w4
    · rw [if_neg hx]
      exact m4
  · simp only [ovRecord]
    rw [overrideField_eq]
    by_cases hx : truthy hand.os_version = true
    · rw [if_pos hx]
      exact w5
    · rw [if_neg hx]
      exact m5
  · simp only [ovRecord]
    by_cases hfam : truthy hand.os_family = true
    · obtain ⟨g0, hg0, hgne⟩ := truthy_some _ hfam
      left
      have hos : check_os tc hand.os_family hand.os_type hand.os_version = true := by
        rcases wos with hos | ⟨hf2, _, _⟩
        · exact hos
        · rw [hf2] at hg0
          exact absurd hg0 (by simp)
      rw [overrideField_eq, if_pos hfam]
      by_cases htyp : truthy hand.os_type = true
      · rw [overrideField_eq, if_pos htyp]
        exact hos
      · rw [overrideField_eq, if_neg htyp, set_typ]
        by_cases hchk : check_os tc (_validate_label Lf) (_validate_label Lt)
            (_validate_label Lv) = true
        · rw [if_pos hchk]
          cases hLf : _validate_label Lf with
          | none =>
            rw [hLf] at hchk
            simp [check_os] at hchk
          | some gg =>
            obtain ⟨raw, hraw, hplow⟩ := validate_eq_some_of Lf gg hLf
            have hrg : raw = g0 := hcf g0 raw hg0 hgne hraw
            have hpg : pyLower g0 = g0 := fixpoint_pyLower g0 (by rw [← hg0]; exact w3)
            have hggg : gg = g0 := by rw [← hplow, hrg, hpg]
            rw [hg0]
            rw [hLf, hggg] at hchk
            exact hchk
        · rw [if_neg hchk, hg0]
          have hkey := check_os_key tc g0 hand.os_type hand.os_version (hg0 ▸ hos)
          simp [check_os, emptyAnnotation, hkey]
    · have hfnone : hand.os_family = none := fixpoint_none _ w3 hfam
      have hrest : hand.os_type = none ∧ hand.os_version = none := by
        rcases wos with hos | ⟨_, ht2, hv2⟩
        · rw [hfnone] at hos
          simp [check_os] at hos
        · exact ⟨ht2, hv2⟩
      rw [overrideField_eq, if_neg hfam, overrideField_eq,
        if_neg (by simp [hrest.1, truthy]), overrideField_eq,
        if_neg (by simp [hrest.2, truthy])]
      exact mos
  · simp only [ovRecord]
    by_cases hgrp : truthy hand.group = true
    · obtain ⟨g0, hg0, hgne⟩ := truthy_some _ hgrp
      left
      have hdev : check_device tc hand.group hand._class = true := by
        rcases wdev with hdev | ⟨hf2, _⟩
        · exact hdev
        · rw [hf2] at hg0
          exact absurd hg0 (by simp)
      rw [overrideField_eq, if_pos hgrp]
      by_cases hcls : truthy hand._class = true
      · rw [overrideField_eq, if_pos hcls]
        exact hdev
      · rw [overrideField_eq, if_neg hcls, set_class]
        by_cases hchk : check_device tc (_validate_label Lg) (_validate_label Lc) = true
        · rw [if_pos hchk]
          cases hLg : _validate_label Lg with
          | none =>
            rw [hLg] at hchk
            simp [check_device] at hchk
          | some gg =>
            obtain ⟨raw, hraw, hplow⟩ := validate_eq_some_of Lg gg hLg
            have hrg : raw = g0 := hcg g0 raw hg0 hgne hraw
            have hpg : pyLower g0 = g0 := fixpoint_pyLower g0 (by rw [← hg0]; exact w1)
            have hggg : gg = g0 := by rw [← hplow, hrg, hpg]
            rw [hg0]
            rw [hLg, hggg] at hchk
            exact hchk
        · rw [if_neg hchk, hg0]
          have hkey := check_device_key tc g0 hand._class (hg0 ▸ hdev)
          simp [check_device, emptyAnnotation, hkey]
    · have hgnone : hand.group = none := fixpoint_none _ w1 hgrp
      have hcnone : hand._class = none := by
        rcases wdev with hdev | ⟨_, hc2⟩
        · rw [hgnone] at hdev
          simp [check_device] at hdev
        · exact hc2
      rw [overrideField_eq, if_neg hgrp, overrideField_eq,
        if_neg (by simp [hcnone, truthy])]
      exact mdev

/-- The final record `perform_annotation` computes for a fresh entity with
taxonomy-valid candidate records is itself well-formed (and hence
round-trips through export/load). -/
lemma perform_wf (tc : Taxonomy_checker) (ip : IP) (minc : Nat)
    (h0 : finalRec ip = emptyAnnotation)
    (hall : ∀ p ∈ ip.annotations, wellFormed tc p.2) :
    wellFormed tc (finalRec ( perform_annotation tc ip minc)) := by
  rw [perform_final_formula]
  cases hfind : ip.annotations.find? (fun p => p.1 == "hand_annotator") with
  | none =>
    rw [fusedFinal_set, h0]
    exact mk_wellFormed tc _ _ _ _ _
  | some hp =>
    rw [fusedFinal_set, h0]
    have hw := hall hp (List.mem_of_find?_eq_some hfind)
    apply ov_mk_wellFormed tc hp.2 _ _ _ _ _ hw
    · intro s v2 hs hsne hLg
      exact hand_vote_value ip hp hfind (fun a => a.group) minc true v2 s hLg hs hsne
    · intro s v2 hs hsne hLf
      exact hand_vote_value ip hp hfind (fun a => a.os_family) minc true v2 s hLf hs hsne

/-- C7: export/load round-trips — `Annotation.load (r.export()) == r` for
every well-formed Classification Record (normalized fields whose halves
pass the taxonomy checks or are entirely absent; every record the
constructor produces is of this shape, third conjunct, and fusing a fresh
entity with well-formed candidates yields a well-formed final record,
fourth conjunct), and `IP.load
(e.export())` reproduces the entry — address, final record, candidate map,
evidence, and the three audit lists — whenever its records are
well-formed. -/
theorem export_load_roundtrip :
    ∀ (tc : Taxonomy_checker) (r : Annotation) (ip : IP) (minc : Nat),
      (wellFormed tc r → loadAnnotation tc ( exportAnnotation r) = r) ∧
      (wellFormed tc (finalRec ip) → (∀ p ∈ ip.annotations, wellFormed tc p.2) →
        loadIP tc (exportIP ip) = ip) ∧
      (∀ g c f t v, wellFormed tc ( mkAnnotation tc g c f t v)) ∧
      (finalRec ip = emptyAnnotation → (∀ p ∈ ip.annotations, wellFormed tc p.2) →
        wellFormed tc (finalRec ( perform_annotation tc ip minc))) :=
  fun tc r ip minc =>
    ⟨ann_roundtrip tc r, ip_roundtrip tc ip, fun g c f t v => mk_wellFormed tc g c f t v,
     perform_wf tc ip minc⟩

/-- C7 (witness): a concrete entity with populated candidate map, evidence
and audit lists round-trips exactly. -/
theorem export_load_roundtrip_witness :
    loadIP tcEx (exportIP ipRT) = ipRT ∧ exportIP (loadIP tcEx (exportIP ipRT)) = exportIP ipRT :=
  ⟨(export_load_roundtrip tcEx emptyAnnotation ipRT 2).2.1 (by decide) (by decide),
   by decide⟩

end DAF
